import Mathlib

/-!
Verification of the pattern-guarded source-patching scripts of the `diane`
repository.  Each script reads one Swift source file, transforms its text in
memory with `str.replace` or `re.sub`, and writes it back.  Every pattern the
scripts use is a literal string (all regex metacharacters are escaped, or the
pattern is handled specially below), so the in-memory transformations are
embedded here as pure functions over `List Char` — the exact byte sequence of
the file's text.

Conventions of the embedding:
* `containsSeq p s` is Python's `p in s` (substring test);
* `replaceAll p r s` is Python's `s.replace(p, r)`, equally `re.sub` with a
  fully escaped literal pattern: every non-overlapping occurrence is replaced,
  scanning left to right, and replaced text is not rescanned;
* braces inside the transcribed Swift literals are written with the escapes
  `\x7b` and `\x7d`, a newline is `\n`, a double quote is `\"`; apostrophes
  are spliced in as `Char.ofNat 39`.
-/

namespace Diane

set_option maxRecDepth 100000

/-- Tri-state result of one patch-rule application, as the scripts observe it:
`applied` (the substitution was performed), `skipped` (an idempotency guard
found the change already present), `notFound` (no pattern matched). -/
inductive Outcome where
  | applied
  | skipped
  | notFound
deriving DecidableEq, Repr

/-- `leadsWith p s` : the text `s` starts with the pattern `p`. -/
def leadsWith : List Char → List Char → Bool
  | [], _ => true
  | _ :: _, [] => false
  | a :: ps, c :: cs => (a == c) && leadsWith ps cs

/-- Python's `p in s`: some suffix of `s` starts with `p`. -/
def containsSeq (p : List Char) : List Char → Bool
  | [] => leadsWith p []
  | c :: rest => leadsWith p (c :: rest) || containsSeq p rest

/-- Index of the first position of `s` where the pattern `p` starts, if any
(the span Python's matcher reports first, scanning left to right). -/
def firstAt (p : List Char) : List Char → Option Nat
  | [] => if leadsWith p [] then some 0 else none
  | c :: rest =>
    if leadsWith p (c :: rest) then some 0
    else (firstAt p rest).map (· + 1)

/-- Worker for `replaceAll`.  The `Nat` argument counts characters still to be
skipped because they belong to a pattern occurrence that was just replaced
(replaced spans are consumed, not rescanned — Python semantics). -/
def replaceAllAux (p r : List Char) : List Char → Nat → List Char
  | [], _ => []
  | c :: rest, 0 =>
    if leadsWith p (c :: rest) then r ++ replaceAllAux p r rest (p.length - 1)
    else c :: replaceAllAux p r rest 0
  | _ :: rest, k + 1 => replaceAllAux p r rest k

/-- Python's `s.replace(p, r)` (and `re.sub` with an escaped-literal pattern):
replace every non-overlapping occurrence of `p` in `s` by `r`, scanning left
to right.  All patterns appearing in the scripts are nonempty, so the guard on
the empty pattern is never exercised. -/
def replaceAll (p r s : List Char) : List Char :=
  if p.isEmpty then s else replaceAllAux p r s 0

/-- Everything before the last occurrence of `ch` in `s`, or `none` when `ch`
does not occur: the head of Python's `s.rsplit(ch, 1)` when it really splits. -/
def cutLast (ch : Char) : List Char → Option (List Char)
  | [] => none
  | c :: rest =>
    match cutLast ch rest with
    | some t => some (c :: t)
    | none => if c == ch then some [] else none

/-- `s.rsplit(ch, 1)[0]`: the part of `s` before the last `ch`, or all of `s`
when `ch` does not occur (Python returns `[s]` then). -/
def rsplitHead (ch : Char) (s : List Char) : List Char :=
  (cutLast ch s).getD s

/-- Index of the first occurrence of a single character. -/
def idxOf (ch : Char) : List Char → Option Nat
  | [] => none
  | c :: rest => if c == ch then some 0 else (idxOf ch rest).map (· + 1)

/-- `p` is a suffix of `s`. -/
def trailsWith (p s : List Char) : Bool :=
  leadsWith p.reverse s.reverse

/-! ### Transcribed literals of the scripts -/

/-- The closing-brace character, written with its hex escape. -/
def braceR : Char := '\x7d'

/-- The newline character. -/
def nlChar : Char := '\x0a'

/-- A one-character newline text. -/
def nlL : List Char := "\n".data

/-- Anchor of src/fix_diane_client.py: the literal inside the regex
`r'(    // MARK: - Agents\n)'` (no unescaped metacharacters). -/
def mAgents : List Char := "    // MARK: - Agents\n".data

/-- Anchor of src/fix_diane_client2.py, fix_diane_client9.py and
fix_diane_client10.py: the literal `    // MARK: - Gallery\n`. -/
def mGallery : List Char := "    // MARK: - Gallery\n".data

/-- Idempotency signature checked by fix_diane_client2.py, fix_diane_client9.py
and fix_diane_client10.py: `"func addAgent(agent: AgentConfig)" not in content`. -/
def sigAdd : List Char := "func addAgent(agent: AgentConfig)".data

/-- `add_func` of src/fix_diane_client.py and (identically) of
src/fix_diane_client2.py. -/
def addFuncA : List Char :=
  "\n    func addAgent(agent: AgentConfig) async throws \x7b\n        try await requestWithBody(endpoint: \"/agents\", method: \"POST\", body: agent)\n    \x7d\n".data

/-- `add_func` of src/fix_diane_client3.py (same body plus a closing brace for
the enclosing class). -/
def addFunc3 : List Char :=
  "\n    func addAgent(agent: AgentConfig) async throws \x7b\n        try await requestWithBody(endpoint: \"/agents\", method: \"POST\", body: agent)\n    \x7d\n\x7d\n".data

/-- The pattern of src/fix_diane_client4.py: its regex is a fully escaped
literal (the addAgent body inserted by fix_diane_client.py). -/
def oldB4 : List Char :=
  "    func addAgent(agent: AgentConfig) async throws \x7b\n        try await requestWithBody(endpoint: \"/agents\", method: \"POST\", body: agent)\n    \x7d".data

/-- The replacement of src/fix_diane_client4.py: `add_func.strip('\n')`. -/
def newB4 : List Char :=
  "    func addAgent(agent: AgentConfig) async throws \x7b\n        let args = [\"agent\", \"add\", agent.name, agent.url, agent.description ?? \"\"]\n        _ = try await processRequest(args: args)\n    \x7d".data

/-- Head of the cleanup pattern of src/fix_diane_client9.py:
`    func addAgent\(agent: AgentConfig\) async throws \{\n` (escaped literal). -/
def fnHead9 : List Char :=
  "    func addAgent(agent: AgentConfig) async throws \x7b\n".data

/-- Tail of the cleanup pattern of src/fix_diane_client9.py: the literal text
matched by `\n    \}\n)\}\n` just before the end anchor. -/
def tail9 : List Char := "\n    \x7d\n\x7d\n".data

/-- `add_func` of src/fix_diane_client9.py. -/
def addFunc9 : List Char :=
  "\n    func addAgent(agent: AgentConfig) async throws \x7b\n        // Local CLI only supports basic add right now: name url [description]\n        var args = [\"agent\", \"add\", agent.name, agent.url]\n        if let desc = agent.description, !desc.isEmpty \x7b\n            args.append(desc)\n        \x7d\n        _ = try await processRequest(args: args)\n    \x7d\n".data

/-- `add_func` of src/fix_diane_client10.py (fix_diane_client9's body without
the comment line). -/
def addFunc10 : List Char :=
  "\n    func addAgent(agent: AgentConfig) async throws \x7b\n        var args = [\"agent\", \"add\", agent.name, agent.url]\n        if let desc = agent.description, !desc.isEmpty \x7b\n            args.append(desc)\n        \x7d\n        _ = try await processRequest(args: args)\n    \x7d\n".data

/-- `old_fields` of src/patch_agents_view.py. -/
def oldFieldsAV : List Char :=
  "            Form \x7b\n                TextField(\"Name (required)\", text: $viewModel.newAgentName)\n                TextField(\"URL (required)\", text: $viewModel.newAgentURL)\n                TextField(\"Description\", text: $viewModel.newAgentDescription)\n                TextField(\"Working Directory\", text: $viewModel.newAgentWorkdir)\n            \x7d".data

/-- `new_fields` of src/patch_agents_view.py.  The line between the two
sections carries sixteen trailing spaces, exactly as in the script; the
apostrophe of the second comment line is spliced in as `Char.ofNat 39`. -/
def newFieldsAV : List Char :=
  "            Form \x7b\n                Section(\"Basic Settings\") \x7b\n                    TextField(\"Name (required)\", text: $viewModel.newAgentName)\n                    TextField(\"URL (optional)\", text: $viewModel.newAgentURL)\n                    TextField(\"Description\", text: $viewModel.newAgentDescription)\n                    TextField(\"Working Directory\", text: $viewModel.newAgentWorkdir)\n                \x7d\n                \n                Section(\"Workspace Configuration (Emergent Agents)\") \x7b\n                    TextField(\"Base Image\", text: $viewModel.newAgentBaseImage)\n                    TextField(\"Repository URL\", text: $viewModel.newAgentRepoURL)\n                    TextField(\"Repository Branch\", text: $viewModel.newAgentRepoBranch)\n                    TextField(\"Provider (e.g. firecracker, e2b)\", text: $viewModel.newAgentProvider)\n                    // We simplify the setup commands here since StringArrayEditor requires more setup\n                    // For now, emergent engine supports them but we don".data
    ++ [Char.ofNat 39]
    ++ "t block the UI update on it\n                \x7d\n            \x7d".data

/-- `old_disabled` of src/patch_agents_view.py. -/
def oldDisabledAV : List Char :=
  ".disabled(viewModel.newAgentName.isEmpty || viewModel.newAgentURL.isEmpty || viewModel.isInstalling)".data

/-- `new_disabled` of src/patch_agents_view.py. -/
def newDisabledAV : List Char :=
  ".disabled(viewModel.newAgentName.isEmpty || viewModel.isInstalling)".data

/-- Literal head of the pattern of src/patch_ios_agents_views.py:
`DetailSection\(title: "Connection"\) \{` before the lazy `.+?\}`. -/
def connHead : List Char :=
  "DetailSection(title: \"Connection\") \x7b".data

/-- The text src/patch_ios_agents_views.py appends after the matched span (its
replacement is `\1` followed by this block; the second line carries twelve
trailing spaces, exactly as in the script). -/
def blockIOS : List Char :=
  "\n            \n            if let wc = agent.workspaceConfig \x7b\n                DetailSection(title: \"Workspace Configuration\") \x7b\n                    if let img = wc.baseImage, !img.isEmpty \x7b\n                        InfoRow(label: \"Base Image\", value: img)\n                    \x7d\n                    if let repo = wc.repoUrl, !repo.isEmpty \x7b\n                        InfoRow(label: \"Repo URL\", value: repo)\n                    \x7d\n                    if let branch = wc.repoBranch, !branch.isEmpty \x7b\n                        InfoRow(label: \"Repo Branch\", value: branch)\n                    \x7d\n                    if let provider = wc.provider, !provider.isEmpty \x7b\n                        InfoRow(label: \"Provider\", value: provider)\n                    \x7d\n                    if let commands = wc.setupCommands, !commands.isEmpty \x7b\n                        InfoRow(label: \"Setup Commands\", value: commands.joined(separator: \", \"))\n                    \x7d\n                \x7d\n            \x7d".data

/-- Pattern 1 of src/fix_http_client.py (escaped literal): the read-only
`testAgent` stub. -/
def oldTestHC : List Char :=
  "    func testAgent(name: String) async throws -> AgentTestResult \x7b\n        throw DianeHTTPClientError.readOnlyMode\n    \x7d".data

/-- Replacement 1 of src/fix_http_client.py: `test_agent.strip('\n')`.  The
`\\(` of the Python source is a backslash-parenthesis pair in the template,
which `re.sub` keeps literally (only backslash-letter escapes are special). -/
def newTestHC : List Char :=
  "    func testAgent(name: String) async throws -> AgentTestResult \x7b\n        let encodedName = name.addingPercentEncoding(withAllowedCharacters: .urlPathAllowed) ?? name\n        let data = try await requestWithBody(\"/agents/\\(encodedName)/test\", method: \"POST\", body: nil)\n        return try decode(AgentTestResult.self, from: data)\n    \x7d".data

/-- Pattern 2 of src/fix_http_client.py: the read-only `toggleAgent` stub. -/
def oldToggleHC : List Char :=
  "    func toggleAgent(name: String, enabled: Bool) async throws \x7b\n        throw DianeHTTPClientError.readOnlyMode\n    \x7d".data

/-- Replacement 2 of src/fix_http_client.py. -/
def newToggleHC : List Char :=
  "    func toggleAgent(name: String, enabled: Bool) async throws \x7b\n        let encodedName = name.addingPercentEncoding(withAllowedCharacters: .urlPathAllowed) ?? name\n        let body = [\"enabled\": enabled]\n        let bodyData = try JSONEncoder().encode(body)\n        _ = try await requestWithBody(\"/agents/\\(encodedName)/toggle\", method: \"POST\", body: bodyData)\n    \x7d".data

/-- Pattern 3 of src/fix_http_client.py: the read-only `runAgentPrompt` stub. -/
def oldRunHC : List Char :=
  "    func runAgentPrompt(agentName: String, prompt: String, remoteAgentName: String?) async throws -> AgentRunResult \x7b\n        throw DianeHTTPClientError.readOnlyMode\n    \x7d".data

/-- Replacement 3 of src/fix_http_client.py. -/
def newRunHC : List Char :=
  "    func runAgentPrompt(agentName: String, prompt: String, remoteAgentName: String?) async throws -> AgentRunResult \x7b\n        let encodedName = agentName.addingPercentEncoding(withAllowedCharacters: .urlPathAllowed) ?? agentName\n        var body: [String: String] = [\"prompt\": prompt]\n        if let remoteAgent = remoteAgentName \x7b\n            body[\"agent_name\"] = remoteAgent\n        \x7d\n        let bodyData = try JSONEncoder().encode(body)\n        let data = try await requestWithBody(\"/agents/\\(encodedName)/run\", method: \"POST\", body: bodyData)\n        return try decodeGo(AgentRunResult.self, from: data)\n    \x7d".data

/-- Pattern 4 of src/fix_http_client.py: the read-only `removeAgent` stub. -/
def oldRemoveHC : List Char :=
  "    func removeAgent(name: String) async throws \x7b\n        throw DianeHTTPClientError.readOnlyMode\n    \x7d".data

/-- Replacement 4 of src/fix_http_client.py. -/
def newRemoveHC : List Char :=
  "    func removeAgent(name: String) async throws \x7b\n        let encodedName = name.addingPercentEncoding(withAllowedCharacters: .urlPathAllowed) ?? name\n        _ = try await requestWithBody(\"/agents/\\(encodedName)\", method: \"DELETE\")\n    \x7d".data

/-- Pattern 5 of src/fix_http_client.py: the read-only `updateAgent` stub. -/
def oldUpdateHC : List Char :=
  "    func updateAgent(name: String, subAgent: String?, enabled: Bool?, description: String?, workdir: String?) async throws \x7b\n        throw DianeHTTPClientError.readOnlyMode\n    \x7d".data

/-- Replacement 5 of src/fix_http_client.py (one line carries eight trailing
spaces, exactly as in the script). -/
def newUpdateHC : List Char :=
  "    func updateAgent(name: String, subAgent: String?, enabled: Bool?, description: String?, workdir: String?) async throws \x7b\n        let encodedName = name.addingPercentEncoding(withAllowedCharacters: .urlPathAllowed) ?? name\n        var body: [String: Any] = [:]\n        if let subAgent = subAgent \x7b\n            body[\"sub_agent\"] = subAgent\n        \x7d\n        if let enabled = enabled \x7b\n            body[\"enabled\"] = enabled\n        \x7d\n        if let description = description \x7b\n            body[\"description\"] = description\n        \x7d\n        if let workdir = workdir \x7b\n            body[\"workdir\"] = workdir\n        \x7d\n        \n        guard !body.isEmpty else \x7b return \x7d\n        let bodyData = try JSONSerialization.data(withJSONObject: body)\n        _ = try await requestWithBody(\"/agents/\\(encodedName)/update\", method: \"POST\", body: bodyData)\n    \x7d".data

/-! ### The in-memory transformation of each script

Each script reads the whole target file, transforms the text, and writes it
back; the functions below are those text transformations.  A `...Outcome`
function states the tri-state result exactly as the script's control flow
observes it, and a `...Write` function is `some written` when the script
performs a write with `written` as the full new content, `none` when it does
not open the file for writing. -/

/-- src/fix_diane_client.py: `re.sub(r'(    // MARK: - Agents\n)', r'\1' +
add_func, content)` — the pattern is the escaped literal `mAgents`, and the
template is the matched anchor followed by `addFuncA`, so every occurrence of
the anchor becomes anchor ++ addFuncA.  There is no idempotency guard. -/
def fixDianeClient1 (x : List Char) : List Char :=
  replaceAll mAgents (mAgents ++ addFuncA) x

/-- Outcome of src/fix_diane_client.py: the substitution fires exactly when the
anchor occurs; the script has no guard, so `skipped` is impossible. -/
def fixDianeClient1Outcome (x : List Char) : Outcome :=
  if containsSeq mAgents x then .applied else .notFound

/-- src/fix_diane_client.py opens the target with mode `w` and writes the
(possibly unchanged) content unconditionally. -/
def fixDianeClient1Write (x : List Char) : Option (List Char) :=
  some (fixDianeClient1 x)

/-- src/fix_diane_client2.py: insertion of `add_func + '\n' + anchor` at the
Gallery anchor, guarded by `"func addAgent(agent: AgentConfig)" not in
content`. -/
def fixDianeClient2 (x : List Char) : List Char :=
  if containsSeq sigAdd x then x
  else replaceAll mGallery (addFuncA ++ nlL ++ mGallery) x

/-- src/fix_diane_client3.py: `content.rsplit('}', 1)[0] + add_func` — drop
everything from the last closing brace on (or keep all of the text when there
is no brace) and append the fixed block.  No guard of any kind. -/
def fixDianeClient3 (x : List Char) : List Char :=
  rsplitHead braceR x ++ addFunc3

/-- src/fix_diane_client4.py: `re.sub` whose pattern is the fully escaped
literal `oldB4` and whose replacement `newB4` uses no group references. -/
def fixDianeClient4 (x : List Char) : List Char :=
  replaceAll oldB4 newB4 x

/-- Outcome of src/fix_diane_client4.py: the substitution fires exactly when
the previous-version block occurs. -/
def fixDianeClient4Outcome (x : List Char) : Outcome :=
  if containsSeq oldB4 x then .applied else .notFound

/-- The cleanup `re.sub` of src/fix_diane_client9.py:

`re.sub(r'(    func addAgent\(agent: AgentConfig\) async throws \{\n.*?\n    \}\n)\}\n$', r'}', content, flags=re.DOTALL)`

With DOTALL and without MULTILINE, `$` matches at the end of the string or
just before a terminal newline.  A match must start with the literal
`fnHead9`, end with the literal `tail9` at a `$` position, and have an
arbitrary (lazy, possibly brace-containing) middle; the whole match is
replaced by a single `}`.  The regex engine takes the leftmost possible start
(if the first `fnHead9` occurrence cannot complete a match, no later one can,
since the end positions are fixed), and the lazy middle takes the earlier of
the two possible `$` end positions.  At most one match is possible because the
pattern is end-anchored, and the at most one character after it cannot contain
another match, so one substitution is faithful to `re.sub`'s scan. -/
def cleanup9 (s : List Char) : List Char :=
  match firstAt fnHead9 s with
  | none => s
  | some i =>
    let need := i + fnHead9.length + tail9.length
    let stop : Option Nat :=
      if (s.getLast? == some nlChar) && trailsWith tail9 s.dropLast
          && Nat.ble (need + 1) s.length then
        some (s.length - 1)
      else if trailsWith tail9 s && Nat.ble need s.length then
        some s.length
      else none
    match stop with
    | none => s
    | some p => s.take i ++ braceR :: s.drop p

/-- src/fix_diane_client9.py: the trailing-cleanup substitution followed by
the guarded insertion at the Gallery anchor (the guard reads the content
*after* the cleanup ran). -/
def fixDianeClient9 (x : List Char) : List Char :=
  let y := cleanup9 x
  if containsSeq sigAdd y then y
  else replaceAll mGallery (addFunc9 ++ nlL ++ mGallery) y

/-- src/fix_diane_client10.py: `content.replace("    // MARK: - Gallery\n",
add_func + "\n    // MARK: - Gallery\n")`, guarded by the addAgent signature. -/
def fixDianeClient10 (x : List Char) : List Char :=
  if containsSeq sigAdd x then x
  else replaceAll mGallery (addFunc10 ++ nlL ++ mGallery) x

/-- Outcome of src/fix_diane_client10.py: guard present → skipped; otherwise
the replacement fires exactly when the Gallery anchor occurs. -/
def fixDianeClient10Outcome (x : List Char) : Outcome :=
  if containsSeq sigAdd x then .skipped
  else if containsSeq mGallery x then .applied
  else .notFound

/-- Rule 1 of src/patch_agents_view.py: `if old_fields in content:
content.replace(old_fields, new_fields) else print(...)`. -/
def pavStep1 (x : List Char) : List Char :=
  if containsSeq oldFieldsAV x then replaceAll oldFieldsAV newFieldsAV x else x

/-- Outcome of rule 1 of src/patch_agents_view.py (the else branch prints
`Could not find fields block` and continues). -/
def pavStep1Outcome (x : List Char) : Outcome :=
  if containsSeq oldFieldsAV x then .applied else .notFound

/-- Rule 2 of src/patch_agents_view.py: the guarded replacement of the
`.disabled(...)` modifier. -/
def pavStep2 (x : List Char) : List Char :=
  if containsSeq oldDisabledAV x then replaceAll oldDisabledAV newDisabledAV x
  else x

/-- Outcome of rule 2 of src/patch_agents_view.py. -/
def pavStep2Outcome (x : List Char) : Outcome :=
  if containsSeq oldDisabledAV x then .applied else .notFound

/-- src/patch_agents_view.py runs its two rules in sequence on the same
in-memory text, whatever each rule's outcome was. -/
def patchAgentsView (x : List Char) : List Char :=
  pavStep2 (pavStep1 x)

/-- src/patch_agents_view.py writes the content back unconditionally. -/
def patchAgentsViewWrite (x : List Char) : Option (List Char) :=
  some (patchAgentsView x)

/-- Worker for src/patch_ios_agents_views.py's
`re.sub(r'(DetailSection\(title: "Connection"\) \{.+?\})', r'\1' + block,
content, flags=re.DOTALL)`.  A match is the literal `connHead`, a lazy
nonempty middle, and the first closing brace at least one character past the
head; the replacement keeps the whole match (`\1`) and appends `blockIOS`.
Scanning then continues after the match (`re.sub` replaces every match and
never rescans replaced text).  If the first head occurrence has no closing
brace after it, no later occurrence has one either, so the scan stops.  The
fuel argument only bounds the recursion; `fuel = s.length` always suffices
because every round consumes at least one character. -/
def piosAux (fuel : Nat) (s : List Char) : List Char :=
  match fuel with
  | 0 => s
  | fuel + 1 =>
    match firstAt connHead s with
    | none => s
    | some i =>
      let t := s.drop (i + connHead.length)
      match idxOf braceR (t.drop 1) with
      | none => s
      | some j =>
        s.take i ++ connHead ++ t.take (j + 2) ++ blockIOS
          ++ piosAux fuel (t.drop (j + 2))

/-- src/patch_ios_agents_views.py: the in-memory transformation. -/
def patchIOSAgentsViews (x : List Char) : List Char :=
  piosAux x.length x

/-- Outcome of src/patch_ios_agents_views.py, exactly as the script decides
it: `if new_content != content` it reports success, else `Could not find
Connection section`. -/
def patchIOSAgentsViewsOutcome (x : List Char) : Outcome :=
  if patchIOSAgentsViews x = x then .notFound else .applied

/-- src/patch_ios_agents_views.py is the one script that writes
conditionally: only when the new content differs from the old. -/
def patchIOSAgentsViewsWrite (x : List Char) : Option (List Char) :=
  if patchIOSAgentsViews x = x then none else some (patchIOSAgentsViews x)

/-- Rule 1 of src/fix_http_client.py (pattern and template are literals). -/
def httpStep1 (x : List Char) : List Char := replaceAll oldTestHC newTestHC x

/-- Outcome of rule 1 of src/fix_http_client.py: `re.sub` silently leaves the
text unchanged when the pattern is absent. -/
def httpStep1Outcome (x : List Char) : Outcome :=
  if containsSeq oldTestHC x then .applied else .notFound

/-- Rule 2 of src/fix_http_client.py. -/
def httpStep2 (x : List Char) : List Char := replaceAll oldToggleHC newToggleHC x

/-- Rule 3 of src/fix_http_client.py. -/
def httpStep3 (x : List Char) : List Char := replaceAll oldRunHC newRunHC x

/-- Rule 4 of src/fix_http_client.py. -/
def httpStep4 (x : List Char) : List Char := replaceAll oldRemoveHC newRemoveHC x

/-- Rule 5 of src/fix_http_client.py. -/
def httpStep5 (x : List Char) : List Char := replaceAll oldUpdateHC newUpdateHC x

/-- src/fix_http_client.py applies its five substitutions in sequence to the
same in-memory text and then writes it back; a rule whose pattern is absent
falls through silently. -/
def fixHTTPClient (x : List Char) : List Char :=
  httpStep5 (httpStep4 (httpStep3 (httpStep2 (httpStep1 x))))

/-! ### The multi-candidate rule engine

The scripts each hard-code a single pattern; the ordered list of candidate
matchers per rule exists only as the specification's abstraction of the
chronological chain of scripts.  The definitions below model that engine from
the specification so that its candidate-order contract can be stated. -/

/-- Modelled from the spec: the declarative `PatchRule` of the data model — an
ordered list of candidate matchers, a replacement template, and an idempotency
signature.  No script in src/ carries more than one candidate, so this
structure has no source counterpart. -/
structure PatchRule where
  candidates : List (List Char)
  template : List Char
  sig : List Char

/-- Modelled from the spec: candidates are tried in the order supplied by the
`PatchRule`; evaluation stops at the first success. -/
def findCandidate : List (List Char) → List Char → Option (List Char)
  | [], _ => none
  | p :: ps, x => if containsSeq p x then some p else findCandidate ps x

/-- Modelled from the spec: the Patch Applicator substitutes the first matched
span (the span the Anchor Matcher reports) with the rendered template. -/
def replaceFirst (p r s : List Char) : List Char :=
  match firstAt p s with
  | none => s
  | some i => s.take i ++ r ++ s.drop (i + p.length)

/-- Modelled from the spec: one engine invocation — the Idempotency Guard
short-circuits to `skipped`, otherwise the first matching candidate (in
declared order) is substituted, otherwise the Outcome is `notFound`. -/
def applyRule (rule : PatchRule) (x : List Char) : Outcome × List Char :=
  if containsSeq rule.sig x then (.skipped, x)
  else
    match findCandidate rule.candidates x with
    | none => (.notFound, x)
    | some p => (.applied, replaceFirst p rule.template x)

/-! ### Concrete inputs used in the closed statements -/

/-- An artifact that ends, after the Gallery anchor, with the byte sequence
`\n    }\n}\n` — the shape of a Swift file whose class and file both close
right after the anchor's region. -/
def xc9 : List Char := mGallery ++ tail9

/-! ### Lemmas about the text primitives -/

theorem exists_of_leadsWith {p : List Char} :
    ∀ {s : List Char}, leadsWith p s = true → ∃ t, s = p ++ t := by
  induction p with
  | nil => intro s _; exact ⟨s, rfl⟩
  | cons a ps ih =>
    intro s h
    cases s with
    | nil => simp [leadsWith] at h
    | cons c cs =>
      simp only [leadsWith, Bool.and_eq_true, beq_iff_eq] at h
      obtain ⟨t, ht⟩ := ih h.2
      exact ⟨t, by simp [h.1, ht]⟩

theorem leadsWith_append (p t : List Char) : leadsWith p (p ++ t) = true := by
  induction p with
  | nil => rfl
  | cons a ps ih => simp [leadsWith, ih]

theorem containsSeq_of_leadsWith {p s : List Char} (h : leadsWith p s = true) :
    containsSeq p s = true := by
  cases s with
  | nil => exact h
  | cons c cs => simp [containsSeq, h]

theorem exists_of_containsSeq {p : List Char} :
    ∀ {s : List Char}, containsSeq p s = true → ∃ a b, s = a ++ p ++ b := by
  intro s
  induction s with
  | nil =>
    intro h
    obtain ⟨t, ht⟩ := exists_of_leadsWith h
    rcases List.append_eq_nil.mp ht.symm with ⟨hp, htnil⟩
    exact ⟨[], [], by simp [hp]⟩
  | cons c cs ih =>
    intro h
    rcases Bool.or_eq_true_iff.mp h with h1 | h2
    · obtain ⟨t, ht⟩ := exists_of_leadsWith h1
      exact ⟨[], t, by simp [ht]⟩
    · obtain ⟨a, b, hab⟩ := ih h2
      exact ⟨c :: a, b, by simp [hab]⟩

theorem containsSeq_of_parts (a p b s : List Char) (h : s = a ++ p ++ b) :
    containsSeq p s = true := by
  subst h
  induction a with
  | nil => exact containsSeq_of_leadsWith (leadsWith_append p b)
  | cons c a0 ih =>
    simp only [containsSeq, List.cons_append, Bool.or_eq_true]
    exact Or.inr (by simpa [List.append_assoc] using ih)

theorem replaceAll_nil (p r : List Char) : replaceAll p r [] = [] := by
  unfold replaceAll replaceAllAux
  split <;> rfl

theorem replaceAllAux_skip (p r : List Char) :
    ∀ (s : List Char) (k : Nat),
      replaceAllAux p r s k = replaceAllAux p r (s.drop k) 0 := by
  intro s
  induction s with
  | nil => intro k; cases k <;> rfl
  | cons c rest ih =>
    intro k
    cases k with
    | zero => rfl
    | succ k0 => simpa [replaceAllAux] using ih k0

theorem replaceAll_head {p s : List Char} (r : List Char)
    (h : leadsWith p s = true) (hp : p ≠ []) :
    replaceAll p r s = r ++ replaceAll p r (s.drop p.length) := by
  cases p with
  | nil => exact absurd rfl hp
  | cons a ps =>
    cases s with
    | nil => simp [leadsWith] at h
    | cons c cs =>
      show replaceAllAux (a :: ps) r (c :: cs) 0 = _
      rw [replaceAllAux, if_pos h]
      have : replaceAllAux (a :: ps) r cs ((a :: ps).length - 1)
          = replaceAllAux (a :: ps) r (cs.drop ps.length) 0 := by
        simpa using replaceAllAux_skip (a :: ps) r cs ps.length
      rw [this]
      rfl

theorem replaceAll_cons {p : List Char} (r : List Char) {c : Char}
    {rest : List Char} (h : leadsWith p (c :: rest) = false) :
    replaceAll p r (c :: rest) = c :: replaceAll p r rest := by
  have hp : p.isEmpty = false := by
    cases p with
    | nil => simp [leadsWith] at h
    | cons a ps => rfl
  show replaceAll p r (c :: rest) = c :: replaceAll p r rest
  unfold replaceAll
  rw [hp]
  show replaceAllAux p r (c :: rest) 0 = c :: replaceAllAux p r rest 0
  rw [replaceAllAux, if_neg (by simp [h])]

theorem replaceAll_of_not_contains {p s : List Char} (r : List Char)
    (h : containsSeq p s = false) : replaceAll p r s = s := by
  induction s with
  | nil => exact replaceAll_nil p r
  | cons c rest ih =>
    have h2 : (leadsWith p (c :: rest) || containsSeq p rest) = false := h
    rw [Bool.or_eq_false_iff] at h2
    rw [replaceAll_cons r h2.1, ih h2.2]

theorem firstAt_of_containsSeq {p : List Char} :
    ∀ {s : List Char}, containsSeq p s = true → ∃ i, firstAt p s = some i := by
  intro s
  induction s with
  | nil =>
    intro h
    exact ⟨0, by simp [firstAt, show leadsWith p [] = true from h]⟩
  | cons c rest ih =>
    intro h
    by_cases hl : leadsWith p (c :: rest) = true
    · exact ⟨0, by simp [firstAt, hl]⟩
    · have h2 : containsSeq p rest = true := by
        rcases Bool.or_eq_true_iff.mp h with h1 | h2
        · exact absurd h1 hl
        · exact h2
      obtain ⟨j, hj⟩ := ih h2
      exact ⟨j + 1, by simp [firstAt, hl, hj]⟩

theorem replaceAll_firstAt {p : List Char} (r : List Char) :
    ∀ {s : List Char} {i : Nat}, firstAt p s = some i → p ≠ [] →
      replaceAll p r s
        = s.take i ++ r ++ replaceAll p r (s.drop (i + p.length)) := by
  intro s
  induction s with
  | nil =>
    intro i h hp
    have : leadsWith p [] = false := by
      cases p with
      | nil => exact absurd rfl hp
      | cons a ps => rfl
    simp [firstAt, this] at h
  | cons c rest ih =>
    intro i h hp
    by_cases hl : leadsWith p (c :: rest) = true
    · have hi : i = 0 := by
        have h0 : (0 : Nat) = i := by simpa [firstAt, hl] using h
        omega
      subst hi
      simpa using replaceAll_head r hl hp
    · have h2 : ∃ j, firstAt p rest = some j ∧ i = j + 1 := by
        simp only [firstAt, if_neg hl, Option.map_eq_some'] at h
        obtain ⟨j, hj1, hj2⟩ := h
        exact ⟨j, hj1, hj2.symm⟩
      obtain ⟨j, hj, rfl⟩ := h2
      have hl' : leadsWith p (c :: rest) = false := by simpa using hl
      rw [replaceAll_cons r hl', ih hj hp]
      have hd : (c :: rest).drop (j + 1 + p.length) = rest.drop (j + p.length) := by
        have : j + 1 + p.length = (j + p.length) + 1 := by omega
        rw [this, List.drop_succ_cons]
      rw [hd]
      simp [List.take_succ_cons]

theorem containsSeq_replaceAll {q p r s : List Char}
    (hq : containsSeq q r = true) (hs : containsSeq p s = true) (hp : p ≠ []) :
    containsSeq q (replaceAll p r s) = true := by
  obtain ⟨i, hi⟩ := firstAt_of_containsSeq hs
  obtain ⟨u, v, huv⟩ := exists_of_containsSeq hq
  refine containsSeq_of_parts (s.take i ++ u) q
    (v ++ replaceAll p r (s.drop (i + p.length))) _ ?_
  rw [replaceAll_firstAt r hi hp, huv]
  simp [List.append_assoc]

/-- Shared shape of the guarded-insert scripts: check the idempotency
signature, and only when it is absent replace a (nonempty) anchor by a
replacement that itself contains the signature.  Any such transformation is
idempotent. -/
theorem guarded_idem (sg pat rep : List Char) (hsg : containsSeq sg rep = true)
    (hpat : pat ≠ []) (f : List Char → List Char)
    (hf : ∀ y, f y = if containsSeq sg y then y else replaceAll pat rep y) :
    ∀ x, f (f x) = f x := by
  intro x
  by_cases h1 : containsSeq sg x = true
  · have hx : f x = x := by rw [hf]; simp [h1]
    rw [hx]
    exact hx
  · have h1' : containsSeq sg x = false := by simpa using h1
    have hx : f x = replaceAll pat rep x := by rw [hf]; simp [h1']
    by_cases h2 : containsSeq pat x = true
    · have hsig : containsSeq sg (f x) = true := by
        rw [hx]; exact containsSeq_replaceAll hsg h2 hpat
      rw [hf (f x)]
      simp [hsig]
    · have h2' : containsSeq pat x = false := by simpa using h2
      have hid : replaceAll pat rep x = x := replaceAll_of_not_contains rep h2'
      have hx' : f x = x := hx.trans hid
      rw [hx']
      exact hx'

theorem cutLast_of_not_mem {ch : Char} :
    ∀ {v : List Char}, ch ∉ v → cutLast ch v = none := by
  intro v
  induction v with
  | nil => intro _; rfl
  | cons c rest ih =>
    intro h
    have h1 : ch ≠ c := fun he => h (by simp [he])
    have h2 : ch ∉ rest := fun he => h (by simp [he])
    have hbeq : (c == ch) = false := by
      simp [beq_eq_false_iff_ne]
      exact fun he => h1 he.symm
    simp [cutLast, ih h2, hbeq]

theorem cutLast_none_not_mem {ch : Char} :
    ∀ {s : List Char}, cutLast ch s = none → ch ∉ s := by
  intro s
  induction s with
  | nil => intro _; simp
  | cons c rest ih =>
    intro h
    cases hrec : cutLast ch rest with
    | some t => simp [cutLast, hrec] at h
    | none =>
      have hne : (c == ch) = false := by
        by_contra hby
        have : (c == ch) = true := by simpa using hby
        simp [cutLast, hrec, this] at h
      have : c ≠ ch := by simpa [beq_eq_false_iff_ne] using hne
      simp [List.mem_cons]
      exact ⟨fun he => this he.symm, ih hrec⟩

theorem cutLast_append {ch : Char} (u : List Char) {v : List Char}
    (h : ch ∉ v) : cutLast ch (u ++ ch :: v) = some u := by
  induction u with
  | nil => simp [cutLast, cutLast_of_not_mem h]
  | cons c u0 ih => simp [cutLast, ih]

theorem exists_of_cutLast {ch : Char} :
    ∀ {s u : List Char}, cutLast ch s = some u →
      ∃ v, s = u ++ ch :: v ∧ ch ∉ v := by
  intro s
  induction s with
  | nil => intro u h; simp [cutLast] at h
  | cons c rest ih =>
    intro u h
    cases hrec : cutLast ch rest with
    | some t =>
      have hu : u = c :: t := by simpa [cutLast, hrec] using h.symm
      obtain ⟨v, hv1, hv2⟩ := ih hrec
      exact ⟨v, by simp [hu, hv1], hv2⟩
    | none =>
      have hmem : ch ∉ rest := cutLast_none_not_mem hrec
      by_cases hc : (c == ch) = true
      · have hu : u = [] := by simpa [cutLast, hrec, hc] using h.symm
        have : c = ch := by simpa using hc
        exact ⟨rest, by simp [hu, this], hmem⟩
      · have hc' : (c == ch) = false := by simpa using hc
        simp [cutLast, hrec, hc'] at h

/-- A candidate list is scanned strictly in declared order: candidates before
the first match are rejected, and the scan stops at the first pattern that
occurs in the artifact, whatever follows it. -/
theorem findCandidate_first {x p : List Char} :
    ∀ {pre : List (List Char)} (post : List (List Char)),
      (∀ q ∈ pre, containsSeq q x = false) → containsSeq p x = true →
      findCandidate (pre ++ p :: post) x = some p := by
  intro pre
  induction pre with
  | nil => intro post _ hp; simp [findCandidate, hp]
  | cons q qs ih =>
    intro post hq hp
    have h1 : containsSeq q x = false := hq q (by simp)
    have h2 : ∀ r ∈ qs, containsSeq r x = false := fun r hr => hq r (by simp [hr])
    simp [findCandidate, h1, ih post h2 hp]

/-! ### The claims -/

/-- C1, counterexample: src/fix_diane_client.py has no idempotency guard, so
on an artifact holding the Agents anchor the first run applies, the second run
reports `applied` again (never `skipped`) and grows the text a second time. -/
theorem C1_cex :
    fixDianeClient1Outcome (fixDianeClient1 mAgents) = Outcome.applied
      ∧ fixDianeClient1 (fixDianeClient1 mAgents) ≠ fixDianeClient1 mAgents := by
  constructor
  · decide
  · decide

/-- C1, amended: for the guarded rule of src/fix_diane_client10.py, a first
run whose Outcome is `applied` makes the second run report `skipped` and
leave the text byte-for-byte unchanged. -/
theorem C1_thm (x : List Char)
    (h : fixDianeClient10Outcome x = Outcome.applied) :
    fixDianeClient10Outcome (fixDianeClient10 x) = Outcome.skipped
      ∧ fixDianeClient10 (fixDianeClient10 x) = fixDianeClient10 x := by
  have hsig : containsSeq sigAdd x = false := by
    by_cases hs : containsSeq sigAdd x = true
    · simp [fixDianeClient10Outcome, hs] at h
    · simpa using hs
  have hgal : containsSeq mGallery x = true := by
    by_cases hg : containsSeq mGallery x = true
    · exact hg
    · have hg' : containsSeq mGallery x = false := by simpa using hg
      simp [fixDianeClient10Outcome, hsig, hg'] at h
  have hfx : fixDianeClient10 x
      = replaceAll mGallery (addFunc10 ++ nlL ++ mGallery) x := by
    unfold fixDianeClient10
    simp [hsig]
  have hsig2 : containsSeq sigAdd (fixDianeClient10 x) = true := by
    rw [hfx]
    exact containsSeq_replaceAll (by decide) hgal (by decide)
  have hstep : ∀ y, containsSeq sigAdd y = true → fixDianeClient10 y = y := by
    intro y hy
    unfold fixDianeClient10
    simp [hy]
  constructor
  · unfold fixDianeClient10Outcome
    simp [hsig2]
  · exact hstep _ hsig2

/-- C1, witness: the amended idempotence at the concrete one-anchor artifact. -/
theorem C1_wit :
    fixDianeClient10Outcome (fixDianeClient10 mGallery) = Outcome.skipped
      ∧ fixDianeClient10 (fixDianeClient10 mGallery) = fixDianeClient10 mGallery :=
  C1_thm mGallery (by decide)

/-- C2, counterexample: on the empty artifact src/fix_diane_client.py reports
`not-found` yet still opens the file with mode `w` and writes. -/
theorem C2_cex :
    fixDianeClient1Outcome [] = Outcome.notFound
      ∧ (fixDianeClient1Write []).isSome = true := by
  constructor
  · decide
  · decide

/-- C2, amended: only src/patch_ios_agents_views.py persists conditionally —
it writes exactly when its Outcome is `applied`; src/fix_diane_client.py (like
the other scripts) rewrites the file on every invocation, and when its Outcome
is `not-found` the bytes it writes back equal the unchanged input. -/
theorem C2_thm : ∀ x,
    ((patchIOSAgentsViewsWrite x).isSome
        ↔ patchIOSAgentsViewsOutcome x = Outcome.applied)
      ∧ (fixDianeClient1Write x).isSome = true
      ∧ (fixDianeClient1Outcome x = Outcome.notFound →
          fixDianeClient1Write x = some x) := by
  intro x
  refine ⟨?_, rfl, ?_⟩
  · unfold patchIOSAgentsViewsWrite patchIOSAgentsViewsOutcome
    by_cases h : patchIOSAgentsViews x = x <;> simp [h]
  · intro h
    have hn : containsSeq mAgents x = false := by
      by_cases hc : containsSeq mAgents x = true
      · simp [fixDianeClient1Outcome, hc] at h
      · simpa using hc
    unfold fixDianeClient1Write fixDianeClient1
    rw [replaceAll_of_not_contains _ hn]

/-- C3: whenever a rule's outcome is `skipped` or `not-found` (that is, not
`applied`), the artifact text is byte-for-byte unchanged — for the
previous-state rewrite of fix_diane_client4.py, the guarded insert of
fix_diane_client10.py, and both rules of patch_agents_view.py. -/
theorem C3_thm : ∀ x,
    (fixDianeClient4Outcome x ≠ Outcome.applied → fixDianeClient4 x = x)
      ∧ (fixDianeClient10Outcome x ≠ Outcome.applied → fixDianeClient10 x = x)
      ∧ (pavStep1Outcome x ≠ Outcome.applied → pavStep1 x = x)
      ∧ (pavStep2Outcome x ≠ Outcome.applied → pavStep2 x = x) := by
  intro x
  refine ⟨?_, ?_, ?_, ?_⟩
  · intro h
    have hn : containsSeq oldB4 x = false := by
      by_cases hc : containsSeq oldB4 x = true
      · exact absurd (by simp [fixDianeClient4Outcome, hc]) h
      · simpa using hc
    unfold fixDianeClient4
    exact replaceAll_of_not_contains _ hn
  · intro h
    by_cases hs : containsSeq sigAdd x = true
    · unfold fixDianeClient10
      simp [hs]
    · have hs' : containsSeq sigAdd x = false := by simpa using hs
      have hg : containsSeq mGallery x = false := by
        by_cases hc : containsSeq mGallery x = true
        · exact absurd (by simp [fixDianeClient10Outcome, hs', hc]) h
        · simpa using hc
      unfold fixDianeClient10
      rw [if_neg (by simp [hs']), replaceAll_of_not_contains _ hg]
  · intro h
    have hn : containsSeq oldFieldsAV x = false := by
      by_cases hc : containsSeq oldFieldsAV x = true
      · exact absurd (by simp [pavStep1Outcome, hc]) h
      · simpa using hc
    unfold pavStep1
    rw [if_neg (by simp [hn])]
  · intro h
    have hn : containsSeq oldDisabledAV x = false := by
      by_cases hc : containsSeq oldDisabledAV x = true
      · exact absurd (by simp [pavStep2Outcome, hc]) h
      · simpa using hc
    unfold pavStep2
    rw [if_neg (by simp [hn])]

/-- C4, counterexample: on an artifact holding two occurrences of
patch_agents_view.py's `old_disabled` pattern, the script substitutes both —
the later occurrence is not left unmodified. -/
theorem C4_cex :
    pavStep2 (oldDisabledAV ++ nlL ++ oldDisabledAV)
        = newDisabledAV ++ nlL ++ newDisabledAV
      ∧ newDisabledAV ≠ oldDisabledAV := by
  constructor
  · decide
  · decide

/-- C4, amended: when a pattern matches more than one location, the engine
substitutes at the first occurrence in document order and then continues
scanning the remainder, substituting every later non-overlapping occurrence as
well (`str.replace` / `re.sub` without a count replace all matches). -/
theorem C4_thm : ∀ rest,
    pavStep2 (oldDisabledAV ++ rest)
      = newDisabledAV ++ replaceAll oldDisabledAV newDisabledAV rest := by
  intro rest
  have hc : containsSeq oldDisabledAV (oldDisabledAV ++ rest) = true :=
    containsSeq_of_parts [] oldDisabledAV rest _ (by simp)
  unfold pavStep2
  rw [if_pos hc,
    replaceAll_head newDisabledAV (leadsWith_append _ _) (by decide),
    List.drop_left]

/-- C5, counterexample: with two adjacent occurrences of
fix_diane_client4.py's pattern, the text outside the first matched span (the
second occurrence) is rewritten too, so the output is not byte-identical to
the input outside that span. -/
theorem C5_cex :
    fixDianeClient4 (oldB4 ++ oldB4) = newB4 ++ newB4 ∧ newB4 ≠ oldB4 := by
  constructor
  · show replaceAll oldB4 newB4 (oldB4 ++ oldB4) = newB4 ++ newB4
    rw [replaceAll_head newB4 (leadsWith_append _ _) (by decide),
      List.drop_left]
    have h2 : leadsWith oldB4 oldB4 = true := by
      simpa using leadsWith_append oldB4 []
    rw [replaceAll_head newB4 h2 (by decide), List.drop_length,
      replaceAll_nil]
    simp
  · decide

/-- C5, amended: when the match is unique — the first match starts right
after `pre` and the pattern does not occur in `post` — the substitution of
fix_diane_client4.py replaces exactly the matched span and preserves all text
outside it byte-for-byte. -/
theorem C5_thm (pre post : List Char)
    (h1 : firstAt oldB4 (pre ++ oldB4 ++ post) = some pre.length)
    (h2 : containsSeq oldB4 post = false) :
    fixDianeClient4 (pre ++ oldB4 ++ post) = pre ++ newB4 ++ post := by
  show replaceAll oldB4 newB4 (pre ++ oldB4 ++ post) = pre ++ newB4 ++ post
  rw [replaceAll_firstAt newB4 h1 (by decide)]
  have ht : (pre ++ oldB4 ++ post).take pre.length = pre := by
    rw [List.append_assoc]
    exact List.take_left pre (oldB4 ++ post)
  have hd : (pre ++ oldB4 ++ post).drop (pre.length + oldB4.length) = post := by
    have : pre.length + oldB4.length = (pre ++ oldB4).length := by
      simp [List.length_append]
    rw [this]
    exact List.drop_left (pre ++ oldB4) post
  rw [ht, hd, replaceAll_of_not_contains _ h2]

/-- C5, witness: a unique match flanked by one byte on each side. -/
theorem C5_wit :
    fixDianeClient4 ("A".data ++ oldB4 ++ "B".data)
      = "A".data ++ newB4 ++ "B".data :=
  C5_thm "A".data "B".data (by decide) (by decide)

/-- C6: an insert-adjacent patch leaves its anchor present and unmodified —
src/fix_diane_client.py inserts the new block immediately after the Agents
anchor, and src/fix_diane_client10.py immediately before the Gallery anchor,
with the anchor bytes intact at the match position in both cases. -/
theorem C6_thm :
    (∀ x i, firstAt mAgents x = some i →
        fixDianeClient1 x
          = x.take i ++ mAgents ++ addFuncA
              ++ replaceAll mAgents (mAgents ++ addFuncA)
                  (x.drop (i + mAgents.length)))
      ∧ (∀ x i, containsSeq sigAdd x = false → firstAt mGallery x = some i →
          fixDianeClient10 x
            = x.take i ++ addFunc10 ++ nlL ++ mGallery
                ++ replaceAll mGallery (addFunc10 ++ nlL ++ mGallery)
                    (x.drop (i + mGallery.length))) := by
  constructor
  · intro x i h
    unfold fixDianeClient1
    rw [replaceAll_firstAt (mAgents ++ addFuncA) h (by decide)]
    simp [List.append_assoc]
  · intro x i hs h
    unfold fixDianeClient10
    rw [if_neg (by simp [hs]),
      replaceAll_firstAt (addFunc10 ++ nlL ++ mGallery) h (by decide)]
    simp [List.append_assoc]

/-- C7: a rule whose pattern is absent is a normal, non-raising outcome — the
embedded transformations are total functions, and after a `not-found` first
rule both pipelines run their remaining rules on the unchanged text:
patch_agents_view.py still executes its second rule, and fix_http_client.py
still executes substitutions two to five. -/
theorem C7_thm :
    (∀ x, pavStep1Outcome x = Outcome.notFound → patchAgentsView x = pavStep2 x)
      ∧ (∀ x, httpStep1Outcome x = Outcome.notFound →
          fixHTTPClient x
            = httpStep5 (httpStep4 (httpStep3 (httpStep2 x)))) := by
  constructor
  · intro x h
    have hn : containsSeq oldFieldsAV x = false := by
      by_cases hc : containsSeq oldFieldsAV x = true
      · simp [pavStep1Outcome, hc] at h
      · simpa using hc
    have h1 : pavStep1 x = x := by
      unfold pavStep1
      rw [if_neg (by simp [hn])]
    unfold patchAgentsView
    rw [h1]
  · intro x h
    have hn : containsSeq oldTestHC x = false := by
      by_cases hc : containsSeq oldTestHC x = true
      · simp [httpStep1Outcome, hc] at h
      · simpa using hc
    have h1 : httpStep1 x = x := by
      unfold httpStep1
      exact replaceAll_of_not_contains _ hn
    unfold fixHTTPClient
    rw [h1]

/-- C8: in the declarative engine (modelled from the spec, since every script
in src/ hard-codes a single candidate), candidates are evaluated strictly in
declared order, evaluation stops at the first candidate whose pattern occurs,
and the substitution uses that candidate only — the result does not depend on
the candidates listed after it. -/
theorem C8_thm (pre post : List (List Char)) (p tmpl sg x : List Char)
    (hpre : ∀ q ∈ pre, containsSeq q x = false)
    (hp : containsSeq p x = true) (hsg : containsSeq sg x = false) :
    applyRule ⟨pre ++ p :: post, tmpl, sg⟩ x
      = (Outcome.applied, replaceFirst p tmpl x) := by
  unfold applyRule
  rw [if_neg (by simp [hsg])]
  simp [findCandidate_first post hpre hp]

/-- C8, witness: of three candidates only the second occurs; the engine
applies it and reports `applied`. -/
theorem C8_wit :
    applyRule ⟨["AAA".data, "BBB".data, "CCC".data], "T".data, "SIG".data⟩
        "zzBBBzz".data
      = (Outcome.applied, replaceFirst "BBB".data "T".data "zzBBBzz".data) :=
  C8_thm ["AAA".data] ["CCC".data] "BBB".data "T".data "SIG".data
    "zzBBBzz".data (by decide) (by decide) (by decide)

/-- C9, counterexample: the composition run by src/fix_diane_client9.py
(trailing-cleanup `re.sub`, then guarded insert) is not idempotent as a pure
function: on an artifact whose Gallery anchor is followed by `\n    }\n}\n`,
the first run inserts the addAgent block, and the second run's cleanup regex
matches from that block to the end of the file and deletes nearly all of it. -/
theorem C9_cex :
    fixDianeClient9 (fixDianeClient9 xc9) ≠ fixDianeClient9 xc9 := by
  decide

/-- C9, amended: the purely guarded scripts are idempotent — for
fix_diane_client2.py and fix_diane_client10.py, whose only step checks the
addAgent signature and inserts a fragment containing that signature,
`f (f x) = f x` for every input text. -/
theorem C9_thm : ∀ x,
    fixDianeClient2 (fixDianeClient2 x) = fixDianeClient2 x
      ∧ fixDianeClient10 (fixDianeClient10 x) = fixDianeClient10 x := by
  intro x
  constructor
  · exact guarded_idem sigAdd mGallery (addFuncA ++ nlL ++ mGallery)
      (by decide) (by decide) fixDianeClient2 (fun _ => rfl) x
  · exact guarded_idem sigAdd mGallery (addFunc10 ++ nlL ++ mGallery)
      (by decide) (by decide) fixDianeClient10 (fun _ => rfl) x

/-- C10: src/fix_diane_client3.py always changes its input — it truncates the
text at its last closing brace (keeping everything before it) and appends the
fixed addAgent block, with no idempotency check; on brace-free input the whole
block, closing braces included, is appended to the unchanged text. -/
theorem C10_thm :
    (∀ x, fixDianeClient3 x ≠ x)
      ∧ (∀ u v, braceR ∉ v →
          fixDianeClient3 (u ++ braceR :: v) = u ++ addFunc3)
      ∧ (∀ x, braceR ∉ x → fixDianeClient3 x = x ++ addFunc3)
      ∧ containsSeq [braceR] addFunc3 = true := by
  refine ⟨?_, ?_, ?_, by decide⟩
  · intro x h
    unfold fixDianeClient3 rsplitHead at h
    cases hc : cutLast braceR x with
    | none =>
      rw [hc] at h
      have hlen := congrArg List.length h
      simp only [Option.getD_none, List.length_append] at hlen
      have hzero : addFunc3.length = 0 := by omega
      exact absurd hzero (by decide)
    | some u =>
      rw [hc] at h
      obtain ⟨v, hv, _⟩ := exists_of_cutLast hc
      rw [hv] at h
      have htail : addFunc3 = braceR :: v := by
        have := h
        simp only [Option.getD_some] at this
        exact List.append_cancel_left this
      have hhead : addFunc3.head? = some braceR := by rw [htail]; rfl
      exact absurd hhead (by decide)
  · intro u v hv
    unfold fixDianeClient3 rsplitHead
    rw [cutLast_append u hv]
    rfl
  · intro x hx
    unfold fixDianeClient3 rsplitHead
    rw [cutLast_of_not_mem hx]
    rfl

end Diane
